import Mathlib

/-!
Verification of the aozora2fmt text-conversion pipeline.

The program (main.go) is a sequence of regular-expression driven string
substitutions.  We embed it shallowly: strings are lists of runes
(`List Char`, matching Go's `range`/regexp rune semantics), each regular
expression of the source is translated into an explicit deterministic
scanning function (every pattern in the program is backtracking-free:
each greedy sub-pattern is delimited by a character excluded from it),
and `strings.Replace` / `strings.Split` are translated directly.
Scanning loops recurse on a `Nat` fuel bounded by the string length so
that every definition is structurally recursive and kernel-reducible.
-/

namespace Aozora

/-- Strings as lists of runes, the unit Go's regexp and `range` operate on. -/
abbrev Str := List Char

/-- Splits `s` at the first occurrence of `pat`: returns the part before the
occurrence and the part after it, or `none` if `pat` does not occur.
Helper for `strings.Replace` and `strings.Split`. -/
def breakOnSub (s pat : Str) : Option (Str × Str) :=
  if pat.isPrefixOf s then some ([], s.drop pat.length)
  else
    match s with
    | [] => none
    | c :: t => (breakOnSub t pat).map (fun p => (c :: p.1, p.2))

/-- Fueled worker for `replaceAll`; the fuel bounds the number of
replacements, which is at most `s.length` when `pat` is nonempty. -/
def replaceAllAux (new pat : Str) : Nat → Str → Str
  | 0, s => s
  | fuel + 1, s =>
    match breakOnSub s pat with
    | none => s
    | some p => p.1 ++ new ++ replaceAllAux new pat fuel p.2

/-- Go `strings.Replace(s, pat, new, -1)` (= `strings.ReplaceAll`): replaces
every non-overlapping occurrence of `pat` left to right; when `pat` is empty
it inserts `new` before every rune and at the end. -/
def replaceAll (s pat new : Str) : Str :=
  if pat.isEmpty then new ++ s.flatMap (fun c => c :: new)
  else replaceAllAux new pat (s.length + 1) s

/-- Fueled worker for `goSplit`. -/
def splitAux (sep : Str) : Nat → Str → List Str
  | 0, s => [s]
  | fuel + 1, s =>
    match breakOnSub s sep with
    | none => [s]
    | some p => p.1 :: splitAux sep fuel p.2

/-- Go `strings.Split(s, sep)`: splits around each non-overlapping occurrence
of `sep`; splitting by an empty separator yields the list of runes. -/
def goSplit (s sep : Str) : List Str :=
  if sep.isEmpty then s.map (fun c => [c])
  else splitAux sep (s.length + 1) s

/-- Renders the argument list of Go's `%!(EXTRA string=a, string=b)`
diagnostic. -/
def joinArgs : List Str → Str
  | [] => []
  | [a] => ("string=" : String).data ++ a
  | a :: as => ("string=" : String).data ++ a ++ (", " : String).data ++ joinArgs as

/-- Go `fmt.Sprintf` trailer for surplus arguments. -/
def extraL (args : List Str) : Str :=
  ("%!(EXTRA " : String).data ++ joinArgs args ++ [')']

/-- Go `fmt.Sprintf` output for a `%s` verb with no argument left. -/
def missingL : Str := ("%!s(MISSING)" : String).data

/-- Go `fmt.Sprintf` restricted to `%s` verbs — the only verb appearing in
this program's format templates.  Each `%s` consumes one argument; surplus
arguments produce the `%!(EXTRA ...)` trailer, a missing argument produces
`%!s(MISSING)`, and every other rune is copied. -/
def sprintfAux : Str → List Str → Str
  | [], args => if args.isEmpty then [] else extraL args
  | '%' :: 's' :: t, a :: as => a ++ sprintfAux t as
  | '%' :: 's' :: t, [] => missingL ++ sprintfAux t []
  | c :: t, args => c :: sprintfAux t args

/-- `fmt.Sprintf(tmpl, a)` with one string argument. -/
def sprintf1 (tmpl a : Str) : Str := sprintfAux tmpl [a]

/-- `fmt.Sprintf(tmpl, a, b)` with two string arguments. -/
def sprintf2 (tmpl a b : Str) : Str := sprintfAux tmpl [a, b]

/-- The five output templates, as in the source's `OutFmt` struct. -/
structure OutFmt where
  ruby : String
  hdr : String
  shdr : String
  sshdr : String
  pb : String
deriving DecidableEq

/-- `get_outfmt` from the source: selects the templates for a format name;
any unrecognized name leaves the freshly allocated struct at Go's zero
value, i.e. five empty strings. -/
def get_outfmt (fmt : String) : OutFmt :=
  match fmt with
  | "tex" => ⟨"\\ruby\x7b%s\x7d\x7b%s\x7d", "\\chapter\x7b%s\x7d",
              "\\section*\x7b%s\x7d", "\\subsection*\x7b%s\x7d", "\\newpage"⟩
  | "md" => ⟨"<ruby>%s<rp>《</rp><rt>%s</rt><rp>》</rp></ruby>", "# %s",
             "## %s", "### %s", "<div style=\x27break-after:always\x27></div>"⟩
  | "plain" => ⟨"[%s:%s]", "%s", "%s", "%s", ""⟩
  | _ => ⟨"", "", "", "", ""⟩

/-- `accent_map` from the source, as an association list in the order of the
source's map literal.  (Go iterates a map in unspecified order; no key of
this table is a substring of another key and no value contains any key, so
the table-driven replacement below is order-independent.) -/
def accent_map : List (String × String) := [
  ("A&", "Å"),
  ("A\x27", "Á"),
  ("A:", "Ä"),
  ("AE&", "Æ"),
  ("A^", "Â"),
  ("A_", "Ā"),
  ("A`", "À"),
  ("A~", "Ã"),
  ("C\x27", "Ć"),
  ("C,", "Ç"),
  ("C^", "Ĉ"),
  ("D/", "Đ"),
  ("E\x27", "É"),
  ("E:", "Ë"),
  ("E^", "Ê"),
  ("E_", "Ē"),
  ("E`", "È"),
  ("E~", "Ẽ"),
  ("G^", "Ĝ"),
  ("H^", "Ĥ"),
  ("I\x27", "Í"),
  ("I:", "Ï"),
  ("I^", "Î"),
  ("I_", "Ī"),
  ("I`", "Ì"),
  ("I~", "Ĩ"),
  ("J^", "Ĵ"),
  ("L\x27", "Ĺ"),
  ("L/", "Ł"),
  ("M\x27", "Ḿ"),
  ("N\x27", "Ń"),
  ("N`", "Ǹ"),
  ("N~", "Ñ"),
  ("O\x27", "Ó"),
  ("O/", "Ø"),
  ("O:", "Ö"),
  ("OE&", "Œ"),
  ("O^", "Ô"),
  ("O_", "Ō"),
  ("O`", "Ò"),
  ("O~", "Õ"),
  ("R\x27", "Ŕ"),
  ("S\x27", "Ś"),
  ("S,", "Ş"),
  ("S^", "Ŝ"),
  ("T,", "Ţ"),
  ("U&", "Ů"),
  ("U\x27", "Ú"),
  ("U:", "Ü"),
  ("U^", "Û"),
  ("U_", "Ū"),
  ("U`", "Ù"),
  ("U~", "Ũ"),
  ("Y\x27", "Ý"),
  ("Z\x27", "Ź"),
  ("a&", "å"),
  ("a\x27", "á"),
  ("a:", "ä"),
  ("a^", "â"),
  ("a_", "ā"),
  ("a`", "à"),
  ("ae&", "æ"),
  ("a~", "ã"),
  ("c\x27", "ć"),
  ("c,", "ç"),
  ("c^", "ĉ"),
  ("d/", "đ"),
  ("e\x27", "é"),
  ("e:", "ë"),
  ("e^", "ê"),
  ("e_", "ē"),
  ("e`", "è"),
  ("e~", "ẽ"),
  ("g^", "ĝ"),
  ("h/", "ħ"),
  ("h^", "ĥ"),
  ("i\x27", "í"),
  ("i/", "ɨ"),
  ("i:", "ï"),
  ("i^", "î"),
  ("i_", "ī"),
  ("i`", "ì"),
  ("i~", "ĩ"),
  ("j^", "ĵ"),
  ("l\x27", "ĺ"),
  ("l/", "ł"),
  ("m\x27", "ḿ"),
  ("n\x27", "ń"),
  ("n`", "ǹ"),
  ("n~", "ñ"),
  ("o\x27", "ó"),
  ("o/", "ø"),
  ("o:", "ö"),
  ("o^", "ô"),
  ("o_", "ō"),
  ("o`", "ò"),
  ("oe&", "œ"),
  ("o~", "õ"),
  ("r\x27", "ŕ"),
  ("s&", "ß"),
  ("s\x27", "ś"),
  ("s,", "ş"),
  ("s^", "ŝ"),
  ("t,", "ţ"),
  ("u&", "ů"),
  ("u\x27", "ú"),
  ("u:", "ü"),
  ("u^", "û"),
  ("u_", "ū"),
  ("u`", "ù"),
  ("u~", "ũ"),
  ("y\x27", "ý"),
  ("y:", "ÿ"),
  ("z\x27", "ź")]

/-- `jis_map` from the source: the 6-digit glyph code to character table,
as an association list (keys are distinct, so lookup order is irrelevant). -/
def jis_map : List (Nat × String) := [
  (311476, "匇"),
  (311524, "噱"),
  (311589, "媧"),
  (318428, "彘"),
  (318431, "彽"),
  (318445, "怳"),
  (318454, "惝"),
  (318455, "惸"),
  (318459, "愷"),
  (318466, "戢"),
  (318477, "挘"),
  (318615, "橛"),
  (318662, "泫"),
  (318740, "炷"),
  (318764, "燄"),
  (318771, "犍"),
  (318822, "璆"),
  (318881, "眶"),
  (318885, "睜"),
  (319155, "蛼"),
  (319239, "蹰"),
  (319278, "鄢"),
  (319413, "騃"),
  (319484, "鼹"),
  (421283, "戕"),
  (428874, "譃"),
  (429267, "餼"),
  (429268, "饀"),
  (429271, "饍"),
  (429337, "魳")]

/-- Lookup in the glyph table, Go's `m[num]` with its `ok` flag. -/
def jisLookup (n : Nat) : Option String :=
  (jis_map.find? (fun p => p.1 == n)).map (fun p => p.2)

/-- The character class of the source's ruby pattern: the four CJK ranges
plus the six extra symbols listed in `replace_ruby`. -/
def isKanji (c : Char) : Bool :=
  (0x3400 ≤ c.toNat && c.toNat ≤ 0x4DBF) ||
  (0x4E00 ≤ c.toNat && c.toNat ≤ 0x9FFF) ||
  (0xF900 ≤ c.toNat && c.toNat ≤ 0xFAFF) ||
  (0x20000 ≤ c.toNat && c.toNat ≤ 0x2FA1F) ||
  c = '〆' || c = '〻' || c = '〇' || c = '々' || c = 'ヶ'

/-- RE2 `\d`, i.e. an ASCII digit. -/
def isDigitCh (c : Char) : Bool := '0' ≤ c && c ≤ '9'

/-- Numeric value of an ASCII digit. -/
def digitVal (c : Char) : Nat := c.toNat - '0'.toNat

/-- Matches the pattern `※［＃([^］]+)］` at the head of the string;
returns (matched text, description capture, remainder). -/
def tryJisAnn : Str → Option (Str × Str × Str)
  | '※' :: '［' :: '＃' :: rest =>
    match rest.takeWhile (fun c => c != '］'), rest.dropWhile (fun c => c != '］') with
    | [], _ => none
    | desc, '］' :: rest2 => some ('※' :: '［' :: '＃' :: desc ++ ['］'], desc, rest2)
    | _, _ => none
  | _ => none

/-- Fueled worker for `findAllJisAnn`. -/
def findAllJisAnnAux : Nat → Str → List (Str × Str)
  | 0, _ => []
  | fuel + 1, s =>
    match s with
    | [] => []
    | c :: t =>
      match tryJisAnn (c :: t) with
      | some r => (r.1, r.2.1) :: findAllJisAnnAux fuel r.2.2
      | none => findAllJisAnnAux fuel t

/-- `FindAllStringSubmatch` for the pattern `※［＃([^］]+)］`: all
non-overlapping leftmost matches, as (matched text, description) pairs. -/
def findAllJisAnn (s : Str) : List (Str × Str) := findAllJisAnnAux s.length s

/-- Matches the pattern `第(\d)水準(\d)-(\d\d)-(\d\d)` at the head of the
string, returning the six captured digit runes. -/
def tryJisNum : Str → Option (Char × Char × Char × Char × Char × Char)
  | '第' :: d1 :: '水' :: '準' :: d2 :: '-' :: a1 :: a2 :: '-' :: b1 :: b2 :: _ =>
    if isDigitCh d1 && isDigitCh d2 && isDigitCh a1 && isDigitCh a2 &&
       isDigitCh b1 && isDigitCh b2
    then some (d1, d2, a1, a2, b1, b2) else none
  | _ => none

/-- `FindStringSubmatch` for `第(\d)水準(\d)-(\d\d)-(\d\d)`: the leftmost
match in the string, or `none`. -/
def findJisNum : Str → Option (Char × Char × Char × Char × Char × Char)
  | [] => none
  | c :: t =>
    match tryJisNum (c :: t) with
    | some r => some r
    | none => findJisNum t

/-- `strconv.Atoi(nums[1]+nums[2]+nums[3]+nums[4])`: the six captured digits
concatenated into one number. -/
def jisCode (d : Char × Char × Char × Char × Char × Char) : Nat :=
  digitVal d.1 * 100000 + digitVal d.2.1 * 10000 + digitVal d.2.2.1 * 1000 +
  digitVal d.2.2.2.1 * 100 + digitVal d.2.2.2.2.1 * 10 + digitVal d.2.2.2.2.2

/-- The warning emitted for an unmapped glyph code (the `log.Printf` line of
`replace_jis`, without the logger's source-location tag). -/
def warnMsg (n : Nat) (m : Str) : String :=
  "jis code not implemented: " ++ toString n ++ ": " ++ String.mk m

/-- One iteration of the loop in `replace_jis`: the numeric sub-pattern is
scanned over the whole current string (not over the matched description);
on no numeric match the iteration is skipped, on an unmapped code a warning
is appended, otherwise every occurrence of the matched text is replaced. -/
def jisStep (acc : Str × List String) (m : Str × Str) : Str × List String :=
  match findJisNum acc.1 with
  | none => acc
  | some d =>
    match jisLookup (jisCode d) with
    | none => (acc.1, acc.2 ++ [warnMsg (jisCode d) m.1])
    | some rep => (replaceAll acc.1 m.1 rep.data, acc.2)

/-- `replace_jis` on rune lists: folds the loop body over the matches found
in the original string, threading the current string and the warnings. -/
def replaceJisL (s : Str) : Str × List String :=
  (findAllJisAnn s).foldl jisStep (s, [])

/-- `replace_jis` from the source; the second component collects the
warnings written to the log. -/
def replace_jis (s : String) : String × List String :=
  ((replaceJisL s.data).1.asString, (replaceJisL s.data).2)

/-- Matches `([kanji]+)《([^》]+)》` at the head of the string; returns
(matched text, base capture, reading capture, remainder). -/
def tryRubyCore (s : Str) : Option (Str × Str × Str × Str) :=
  if (s.takeWhile isKanji).isEmpty then none else
  match s.dropWhile isKanji with
  | '《' :: u =>
    if (u.takeWhile (fun c => c != '》')).isEmpty then none else
    match u.dropWhile (fun c => c != '》') with
    | '》' :: rest =>
      some (s.takeWhile isKanji ++ '《' :: u.takeWhile (fun c => c != '》') ++ ['》'],
            s.takeWhile isKanji, u.takeWhile (fun c => c != '》'), rest)
    | _ => none
  | _ => none

/-- Matches the full ruby pattern `[｜]?([kanji]+)《([^》]+)》` at the head:
the optional separator mark is consumed greedily (and `｜` is not in the
kanji class, so no match exists at this position if the core then fails). -/
def tryRuby : Str → Option (Str × Str × Str × Str)
  | [] => tryRubyCore []
  | c :: t =>
    if c = '｜' then
      match tryRubyCore t with
      | some r => some ('｜' :: r.1, r.2.1, r.2.2.1, r.2.2.2)
      | none => none
    else tryRubyCore (c :: t)

/-- Fueled worker for `findAllRuby`. -/
def findAllRubyAux : Nat → Str → List (Str × Str × Str)
  | 0, _ => []
  | fuel + 1, s =>
    match s with
    | [] => []
    | c :: t =>
      match tryRuby (c :: t) with
      | some r => (r.1, r.2.1, r.2.2.1) :: findAllRubyAux fuel r.2.2.2
      | none => findAllRubyAux fuel t

/-- All non-overlapping leftmost matches of the ruby pattern, as
(matched text, base, reading) triples. -/
def findAllRuby (s : Str) : List (Str × Str × Str) := findAllRubyAux s.length s

/-- The first loop of `replace_ruby`: for each ruby match of the original
string, every occurrence of the matched text is replaced by the ruby
template applied to (base, reading). -/
def rubyPassL (s tmpl : Str) : Str :=
  (findAllRuby s).foldl
    (fun acc m => replaceAll acc m.1 (sprintf2 tmpl m.2.1 m.2.2)) s

/-- Matches the emphasis pattern `［＃「([^」]+)」に傍点］` at the head;
returns (matched text, text capture, remainder). -/
def tryBouten : Str → Option (Str × Str × Str)
  | '［' :: '＃' :: '「' :: t =>
    match t.takeWhile (fun c => c != '」'), t.dropWhile (fun c => c != '」') with
    | [], _ => none
    | txt, '」' :: 'に' :: '傍' :: '点' :: '］' :: rest =>
      some ('［' :: '＃' :: '「' :: txt ++ '」' :: 'に' :: '傍' :: '点' :: '］' :: [],
            txt, rest)
    | _, _ => none
  | _ => none

/-- Fueled worker for `findAllBouten`. -/
def findAllBoutenAux : Nat → Str → List (Str × Str)
  | 0, _ => []
  | fuel + 1, s =>
    match s with
    | [] => []
    | c :: t =>
      match tryBouten (c :: t) with
      | some r => (r.1, r.2.1) :: findAllBoutenAux fuel r.2.2
      | none => findAllBoutenAux fuel t

/-- All non-overlapping leftmost matches of the emphasis pattern, as
(matched text, annotated text) pairs. -/
def findAllBouten (s : Str) : List (Str × Str) := findAllBoutenAux s.length s

/-- The second loop of `replace_ruby`: each emphasis match replaces the
annotated text followed by the annotation with the ruby template applied to
(text, one sesame dot per rune of text). -/
def boutenPassL (s tmpl : Str) : Str :=
  (findAllBouten s).foldl
    (fun acc m =>
      replaceAll acc (m.2 ++ m.1)
        (sprintf2 tmpl m.2 (List.replicate m.2.length '﹅'))) s

/-- `replace_ruby` on rune lists: the ruby pass followed by the emphasis
pass, both using the format's ruby template. -/
def replaceRubyL (s tmpl : Str) : Str := boutenPassL (rubyPassL s tmpl) tmpl

/-- `replace_ruby` from the source. -/
def replace_ruby (s : String) (of : OutFmt) : String :=
  (replaceRubyL s.data of.ruby.data).asString

/-- Matches the accent pattern `〔([^〕]+)〕` at the head; returns
(matched text, inner capture, remainder). -/
def tryAccent : Str → Option (Str × Str × Str)
  | '〔' :: t =>
    match t.takeWhile (fun c => c != '〕'), t.dropWhile (fun c => c != '〕') with
    | [], _ => none
    | inner, '〕' :: rest => some ('〔' :: inner ++ ['〕'], inner, rest)
    | _, _ => none
  | _ => none

/-- Fueled worker for `findAllAccent`. -/
def findAllAccentAux : Nat → Str → List (Str × Str)
  | 0, _ => []
  | fuel + 1, s =>
    match s with
    | [] => []
    | c :: t =>
      match tryAccent (c :: t) with
      | some r => (r.1, r.2.1) :: findAllAccentAux fuel r.2.2
      | none => findAllAccentAux fuel t

/-- All non-overlapping leftmost matches of the accent pattern, as
(matched text, inner text) pairs. -/
def findAllAccent (s : Str) : List (Str × Str) := findAllAccentAux s.length s

/-- The inner loop of `replace_accents`: one global literal replacement per
accent-table entry, over the whole current string. -/
def accentFold (s : Str) : Str :=
  accent_map.foldl (fun acc kv => replaceAll acc kv.1.data kv.2.data) s

/-- `replace_accents` on rune lists: for each bracketed match of the
original string, the brackets are stripped (the matched text is replaced by
its inner text everywhere) and then the whole table is applied to the whole
current string. -/
def replaceAccentsL (s : Str) : Str :=
  (findAllAccent s).foldl (fun acc m => accentFold (replaceAll acc m.1 m.2)) s

/-- `replace_accents` from the source. -/
def replace_accents (s : String) : String := (replaceAccentsL s.data).asString

/-- Matches the structured heading pattern
`\n\n［[^［]+［＃「([^」]+)」は([大中小])見出し］\n\n\n` at the head; returns
(matched text, title capture, level rune, remainder).  (In RE2 a negated
class such as `[^［]` does match a newline.) -/
def tryHdr1 : Str → Option (Str × Str × Char × Str)
  | '\n' :: '\n' :: '［' :: t =>
    match t.takeWhile (fun c => c != '［'), t.dropWhile (fun c => c != '［') with
    | [], _ => none
    | body, '［' :: '＃' :: '「' :: u =>
      match u.takeWhile (fun c => c != '」'), u.dropWhile (fun c => c != '」') with
      | [], _ => none
      | title, '」' :: 'は' :: lv :: '見' :: '出' :: 'し' :: '］' ::
               '\n' :: '\n' :: '\n' :: rest =>
        if lv = '大' || lv = '中' || lv = '小' then
          some ('\n' :: '\n' :: '［' :: body ++ '［' :: '＃' :: '「' :: title ++
                  '」' :: 'は' :: lv :: '見' :: '出' :: 'し' :: '］' ::
                  '\n' :: '\n' :: '\n' :: [],
                title, lv, rest)
        else none
      | _, _ => none
    | _, _ => none
  | _ => none

/-- Fueled worker for `findAllHdr1`. -/
def findAllHdr1Aux : Nat → Str → List (Str × Str × Char)
  | 0, _ => []
  | fuel + 1, s =>
    match s with
    | [] => []
    | c :: t =>
      match tryHdr1 (c :: t) with
      | some r => (r.1, r.2.1, r.2.2.1) :: findAllHdr1Aux fuel r.2.2.2
      | none => findAllHdr1Aux fuel t

/-- All non-overlapping leftmost matches of the structured heading pattern,
as (matched text, title, level rune) triples. -/
def findAllHdr1 (s : Str) : List (Str × Str × Char) := findAllHdr1Aux s.length s

/-- Matches the fallback heading pattern `\n\n\n([^\n]+)\n\n\n` at the head;
returns (matched text, title capture, remainder). -/
def tryHdr2 : Str → Option (Str × Str × Str)
  | '\n' :: '\n' :: '\n' :: t =>
    match t.takeWhile (fun c => c != '\n'), t.dropWhile (fun c => c != '\n') with
    | [], _ => none
    | title, '\n' :: '\n' :: '\n' :: rest =>
      some ('\n' :: '\n' :: '\n' :: title ++ '\n' :: '\n' :: '\n' :: [], title, rest)
    | _, _ => none
  | _ => none

/-- Fueled worker for `findAllHdr2`. -/
def findAllHdr2Aux : Nat → Str → List (Str × Str)
  | 0, _ => []
  | fuel + 1, s =>
    match s with
    | [] => []
    | c :: t =>
      match tryHdr2 (c :: t) with
      | some r => (r.1, r.2.1) :: findAllHdr2Aux fuel r.2.2
      | none => findAllHdr2Aux fuel t

/-- All non-overlapping leftmost matches of the fallback heading pattern,
as (matched text, title) pairs. -/
def findAllHdr2 (s : Str) : List (Str × Str) := findAllHdr2Aux s.length s

/-- The warning of the unreachable default branch of `replace_hdrs`. -/
def badHdrMsg (m : Str) : String := "bad hdr: " ++ String.mk m

/-- One iteration of the structured-mode loop of `replace_hdrs`. -/
def hdrStep (hdr shdr sshdr : Str) (acc : Str × List String) (m : Str × Str × Char) :
    Str × List String :=
  if m.2.2 = '大' then (replaceAll acc.1 m.1 (sprintf1 hdr m.2.1 ++ ['\n']), acc.2)
  else if m.2.2 = '中' then (replaceAll acc.1 m.1 (sprintf1 shdr m.2.1 ++ ['\n']), acc.2)
  else if m.2.2 = '小' then (replaceAll acc.1 m.1 (sprintf1 sshdr m.2.1 ++ ['\n']), acc.2)
  else (replaceAll acc.1 m.1 (m.2.1 ++ ['\n']), acc.2 ++ [badHdrMsg m.1])

/-- `replace_hdrs` on rune lists: structured mode when the heading pattern
matches anywhere, otherwise the fallback mode rewrites each line surrounded
by triple newlines with the top-level header template. -/
def replaceHdrsL (s hdr shdr sshdr : Str) : Str × List String :=
  match findAllHdr1 s with
  | [] =>
    ((findAllHdr2 s).foldl
      (fun acc m => replaceAll acc m.1 ('\n' :: sprintf1 hdr m.2 ++ ['\n'])) s, [])
  | m :: ms => (m :: ms).foldl (hdrStep hdr shdr sshdr) (s, [])

/-- `replace_hdrs` from the source; the second component collects the
warnings written to the log. -/
def replace_hdrs (s : String) (of : OutFmt) : String × List String :=
  ((replaceHdrsL s.data of.hdr.data of.shdr.data of.sshdr.data).1.asString,
   (replaceHdrsL s.data of.hdr.data of.shdr.data of.sshdr.data).2)

/-- The metadata delimiter of `trim_info`: a line of exactly 55 hyphens
bounded by newlines. -/
def delimL : Str := '\n' :: List.replicate 55 '-' ++ ['\n']

/-- `trim_info` on rune lists.  The source indexes `slices[2]` without a
guard; when the split yields fewer than three segments Go panics with an
index-out-of-range runtime error, modelled here as `none`. -/
def trimInfoL (s : Str) : Option Str :=
  match goSplit s delimL with
  | s0 :: _ :: s2 :: _ => some (s0 ++ s2)
  | _ => none

/-- `trim_info` from the source (`none` = the unguarded index panic). -/
def trim_info (s : String) : Option String :=
  (trimInfoL s.data).map (fun r => r.asString)

/-- The conditional trim at the end of `parse`: the metadata block is
stripped exactly when debug mode is off. -/
def trim_stage (debug : Bool) (s : String) : Option String :=
  if debug then some s else trim_info s

/-- Go `strings.Trim(line, "　")`: strips leading and trailing ideographic
spaces (U+3000), the per-line trim at the top of the scan loop of `parse`. -/
def trimIdeoL (s : Str) : Str :=
  ((s.dropWhile (fun c => c = '　')).reverse.dropWhile (fun c => c = '　')).reverse

/-- The per-line body of the scan loop of `parse`: trim, glyph substitution,
ruby substitution, accent substitution. -/
def preprocessLineL (tmpl line : Str) : Str :=
  replaceAccentsL (replaceRubyL (replaceJisL (trimIdeoL line)).1 tmpl)

/-- The per-line preprocessing pipeline of `parse` on strings. -/
def preprocessLine (of : OutFmt) (line : String) : String :=
  (preprocessLineL of.ruby.data line.data).asString

/-- Go `strings.Join(lines, sep)` on rune lists, specialised to the
separator later supplied by `joinLines`. -/
def joinLinesL : List Str → Str
  | [] => []
  | [x] => x
  | x :: y :: t => x ++ '\n' :: '\n' :: joinLinesL (y :: t)

/-- `strings.Join(lines, "\n\n")`, the join step of `parse`. -/
def joinLines (lines : List String) : String :=
  (joinLinesL (lines.map (fun l => l.data))).asString

/-- The page-break replacement step of `parse`. -/
def replacePB (s : String) (of : OutFmt) : String :=
  (replaceAll s.data ("［＃改ページ］" : String).data of.pb.data).asString

/-- The pure part of `parse`: per-line preprocessing, join with blank-line
separators, header restructuring, page-break replacement, conditional
metadata trim (`none` = the trim panic). -/
def parsePipeline (lines : List String) (of : OutFmt) (debug : Bool) : Option String :=
  trim_stage debug
    (replacePB
      ((replaceHdrsL (joinLines (lines.map (preprocessLine of))).data
          of.hdr.data of.shdr.data of.sshdr.data).1.asString) of)

end Aozora

namespace Aozora

/-! Helper lemmas used by the claim theorems. -/

theorem asString_data (s : String) : s.data.asString = s := rfl

theorem takeWhile_all (p : Char → Bool) (xs : Str) (y : Char) (ys : Str)
    (hx : ∀ x ∈ xs, p x = true) (hy : p y = false) :
    (xs ++ (y :: ys)).takeWhile p = xs := by
  induction xs with
  | nil => simp [List.takeWhile, hy]
  | cons x xs ih =>
    have hpx : p x = true := hx x (by simp)
    simp only [List.cons_append, List.takeWhile_cons, hpx, if_true]
    rw [ih (fun z hz => hx z (by simp [hz]))]

theorem dropWhile_all (p : Char → Bool) (xs : Str) (y : Char) (ys : Str)
    (hx : ∀ x ∈ xs, p x = true) (hy : p y = false) :
    (xs ++ (y :: ys)).dropWhile p = y :: ys := by
  induction xs with
  | nil => simp [List.dropWhile, hy]
  | cons x xs ih =>
    have hpx : p x = true := hx x (by simp)
    simp only [List.cons_append, List.dropWhile_cons, hpx, if_true]
    exact ih (fun z hz => hx z (by simp [hz]))

theorem isPrefixOf_self (l : Str) : l.isPrefixOf l = true := by
  induction l with
  | nil => rfl
  | cons c t ih => simp [List.isPrefixOf, ih]

theorem breakOnSub_self (s : Str) (h : s ≠ []) : breakOnSub s s = some ([], []) := by
  rw [breakOnSub.eq_def, if_pos (isPrefixOf_self s), List.drop_length]

theorem breakOnSub_nilstr (pat : Str) (h : pat ≠ []) : breakOnSub [] pat = none := by
  cases pat with
  | nil => exact absurd rfl h
  | cons c t => rw [breakOnSub.eq_def]; simp [List.isPrefixOf]

theorem replaceAllAux_nilstr (new pat : Str) (h : pat ≠ []) (f : Nat) :
    replaceAllAux new pat f [] = [] := by
  cases f with
  | zero => rfl
  | succ f => rw [replaceAllAux, breakOnSub_nilstr pat h]

theorem replaceAll_self (s new : Str) (h : s ≠ []) : replaceAll s s new = new := by
  have he : s.isEmpty = false := by cases s with | nil => exact absurd rfl h | cons c t => rfl
  rw [replaceAll, he]
  simp only [Bool.false_eq_true, if_false]
  rw [replaceAllAux, breakOnSub_self s h]
  simp [replaceAllAux_nilstr new s h]

theorem sprintfAux_cons (c : Char) (t : Str) (args : List Str) (h : c ≠ '%') :
    sprintfAux (c :: t) args = c :: sprintfAux t args := by
  simp [sprintfAux, h]

theorem sprintfAux_copy (t u : Str) (args : List Str) (h : ∀ c ∈ t, c ≠ '%') :
    sprintfAux (t ++ u) args = t ++ sprintfAux u args := by
  induction t with
  | nil => rfl
  | cons c t ih =>
    rw [List.cons_append, sprintfAux_cons c (t ++ u) args (h c (by simp)),
        ih (fun z hz => h z (by simp [hz])), List.cons_append]

theorem sprintfAux_empty (t : Str) (h : ∀ c ∈ t, c ≠ '%') : sprintfAux t [] = t := by
  induction t with
  | nil => rfl
  | cons c t ih =>
    rw [sprintfAux_cons c t [] (h c (by simp)), ih (fun z hz => h z (by simp [hz]))]

theorem sprintf2_split (t1 t2 t3 a b : Str)
    (h1 : ∀ c ∈ t1, c ≠ '%') (h2 : ∀ c ∈ t2, c ≠ '%') (h3 : ∀ c ∈ t3, c ≠ '%') :
    sprintf2 (t1 ++ ('%' :: 's' :: (t2 ++ ('%' :: 's' :: t3)))) a b =
      t1 ++ a ++ t2 ++ b ++ t3 := by
  rw [sprintf2, sprintfAux_copy t1 _ _ h1]
  show t1 ++ (a ++ sprintfAux (t2 ++ ('%' :: 's' :: t3)) [b]) = _
  rw [sprintfAux_copy t2 _ _ h2]
  show t1 ++ (a ++ (t2 ++ (b ++ sprintfAux t3 []))) = _
  rw [sprintfAux_empty t3 h3]
  simp [List.append_assoc]

theorem tryRuby_core_of_ne (c : Char) (t : Str) (h : c ≠ '｜') :
    tryRuby (c :: t) = tryRubyCore (c :: t) := by
  simp [tryRuby, h]

theorem tryRubyCore_exact (base reading : Str) (hb : base ≠ [])
    (hk : ∀ c ∈ base, isKanji c = true) (hr : reading ≠ [])
    (hrg : ∀ c ∈ reading, (c != '》') = true) :
    tryRubyCore (base ++ ('《' :: (reading ++ ['》']))) =
      some (base ++ ('《' :: (reading ++ ['》'])), base, reading, []) := by
  have htw : (base ++ ('《' :: (reading ++ ['》']))).takeWhile isKanji = base :=
    takeWhile_all isKanji base '《' (reading ++ ['》']) hk (by decide)
  have hdw : (base ++ ('《' :: (reading ++ ['》']))).dropWhile isKanji =
      '《' :: (reading ++ ['》']) :=
    dropWhile_all isKanji base '《' (reading ++ ['》']) hk (by decide)
  have h2tw : (reading ++ ['》']).takeWhile (fun c => c != '》') = reading :=
    takeWhile_all _ reading '》' [] hrg (by decide)
  have h2dw : (reading ++ ['》']).dropWhile (fun c => c != '》') = '》' :: [] :=
    dropWhile_all _ reading '》' [] hrg (by decide)
  have hbe : base.isEmpty = false := by
    cases base with | nil => exact absurd rfl hb | cons x xs => rfl
  have hre : reading.isEmpty = false := by
    cases reading with | nil => exact absurd rfl hr | cons x xs => rfl
  rw [tryRubyCore.eq_def, htw, hdw]
  simp [hbe, h2tw, h2dw, hre]

theorem findAllRubyAux_nilstr (f : Nat) : findAllRubyAux f [] = [] := by
  cases f with
  | zero => rfl
  | succ f => rfl

theorem findAllRuby_single (base reading : Str) (hb : base ≠ [])
    (hk : ∀ c ∈ base, isKanji c = true) (hr : reading ≠ [])
    (hrg : ∀ c ∈ reading, (c != '》') = true) :
    findAllRuby (base ++ ('《' :: (reading ++ ['》']))) =
      [(base ++ ('《' :: (reading ++ ['》'])), base, reading)] := by
  obtain ⟨b0, bs, rfl⟩ : ∃ b0 bs, base = b0 :: bs := by
    cases base with
    | nil => exact absurd rfl hb
    | cons b0 bs => exact ⟨b0, bs, rfl⟩
  have hb0 : b0 ≠ '｜' := by
    intro e
    have hx := hk b0 (by simp)
    rw [e] at hx
    exact absurd hx (by decide)
  have htr : tryRuby (b0 :: (bs ++ ('《' :: (reading ++ ['》'])))) =
      some ((b0 :: bs) ++ ('《' :: (reading ++ ['》'])), b0 :: bs, reading, []) := by
    rw [tryRuby_core_of_ne b0 _ hb0, ← List.cons_append]
    exact tryRubyCore_exact (b0 :: bs) reading hb hk hr hrg
  rw [findAllRuby]
  simp only [List.cons_append, List.length_cons]
  rw [findAllRubyAux, htr]
  simp [findAllRubyAux_nilstr]

theorem rubyPass_single (base reading tmpl : Str) (hb : base ≠ [])
    (hk : ∀ c ∈ base, isKanji c = true) (hr : reading ≠ [])
    (hrg : ∀ c ∈ reading, (c != '》') = true) :
    rubyPassL (base ++ ('《' :: (reading ++ ['》']))) tmpl = sprintf2 tmpl base reading := by
  have hne : base ++ ('《' :: (reading ++ ['》'])) ≠ [] := by
    cases base <;> simp
  rw [rubyPassL, findAllRuby_single base reading hb hk hr hrg]
  simp [List.foldl, replaceAll_self _ _ hne]

theorem str_ext (s t : String) (h : s.data = t.data) : s = t := by
  cases s
  cases t
  cases h
  rfl

theorem foldl_jisStep_skip (ms : List (Str × Str)) (s : Str) (logs : List String)
    (h : findJisNum s = none) : ms.foldl jisStep (s, logs) = (s, logs) := by
  induction ms with
  | nil => rfl
  | cons m ms ih => simp [List.foldl, jisStep, h, ih]

end Aozora

namespace Aozora

/-! Template decompositions: closed facts about the templates of `get_outfmt`. -/

theorem ruby_tmpl_plain : ((get_outfmt "plain").ruby : String).data =
    ("[" : String).data ++ ('%' :: 's' :: ((":" : String).data ++
      ('%' :: 's' :: ("]" : String).data))) := by decide

theorem ruby_tmpl_md : ((get_outfmt "md").ruby : String).data =
    ("<ruby>" : String).data ++ ('%' :: 's' :: (("<rp>《</rp><rt>" : String).data ++
      ('%' :: 's' :: ("</rt><rp>》</rp></ruby>" : String).data))) := by decide

theorem ruby_tmpl_tex : ((get_outfmt "tex").ruby : String).data =
    ("\\ruby\x7b" : String).data ++ ('%' :: 's' :: (("\x7d\x7b" : String).data ++
      ('%' :: 's' :: ("\x7d" : String).data))) := by decide

/-! The claim theorems. -/

/-- Claim C1: for every base text of characters in the listed CJK ranges and
every reading, the ruby substitution replaces the matched segment
`base《reading》` using the selected format's ruby template — `[base:reading]`
for "plain", the `<ruby>` element for "md", `\ruby{base}{reading}` for "tex" —
and in particular `replace_ruby` on the line `経済《けいざい》` with format
"md" yields `<ruby>経済<rp>《</rp><rt>けいざい</rt><rp>》</rp></ruby>`. -/
theorem claim_c1 (base reading : Str) (hb : base ≠ [])
    (hk : ∀ c ∈ base, isKanji c = true) (hr : reading ≠ [])
    (hrg : ∀ c ∈ reading, (c != '》') = true) :
    rubyPassL (base ++ ('《' :: (reading ++ ['》']))) (get_outfmt "plain").ruby.data
        = ("[" : String).data ++ base ++ (":" : String).data ++ reading
            ++ ("]" : String).data
  ∧ rubyPassL (base ++ ('《' :: (reading ++ ['》']))) (get_outfmt "md").ruby.data
        = ("<ruby>" : String).data ++ base ++ ("<rp>《</rp><rt>" : String).data
            ++ reading ++ ("</rt><rp>》</rp></ruby>" : String).data
  ∧ rubyPassL (base ++ ('《' :: (reading ++ ['》']))) (get_outfmt "tex").ruby.data
        = ("\\ruby\x7b" : String).data ++ base ++ ("\x7d\x7b" : String).data
            ++ reading ++ ("\x7d" : String).data
  ∧ replace_ruby "経済《けいざい》" (get_outfmt "md")
        = "<ruby>経済<rp>《</rp><rt>けいざい</rt><rp>》</rp></ruby>" := by
  refine ⟨?_, ?_, ?_, by decide⟩
  · rw [rubyPass_single base reading _ hb hk hr hrg, ruby_tmpl_plain,
        sprintf2_split ("[" : String).data ((":" : String).data) (("]" : String).data)
          base reading (by decide) (by decide) (by decide)]
  · rw [rubyPass_single base reading _ hb hk hr hrg, ruby_tmpl_md,
        sprintf2_split (("<ruby>" : String).data) (("<rp>《</rp><rt>" : String).data)
          (("</rt><rp>》</rp></ruby>" : String).data)
          base reading (by decide) (by decide) (by decide)]
  · rw [rubyPass_single base reading _ hb hk hr hrg, ruby_tmpl_tex,
        sprintf2_split (("\\ruby\x7b" : String).data) (("\x7d\x7b" : String).data)
          (("\x7d" : String).data) base reading (by decide) (by decide) (by decide)]

/-- Witness for C1: the hypotheses hold and the conclusion evaluates at
base `経済` and reading `けいざい` in the "md" format. -/
theorem claim_c1_witness :
    (['経', '済'] : Str) ≠ []
  ∧ rubyPassL (['経', '済'] ++ ('《' :: (['け', 'い', 'ざ', 'い'] ++ ['》'])))
        (get_outfmt "md").ruby.data
      = ("<ruby>" : String).data ++ ['経', '済'] ++ ("<rp>《</rp><rt>" : String).data
          ++ ['け', 'い', 'ざ', 'い'] ++ ("</rt><rp>》</rp></ruby>" : String).data :=
  ⟨by decide, (claim_c1 ['経', '済'] ['け', 'い', 'ざ', 'い'] (by decide) (by decide)
      (by decide) (by decide)).2.1⟩

/-- Claim C2: a document splitting as `[A, B, C]` on the 55-hyphen delimiter
line is trimmed to `A ++ C` when debug is false, and passes through the trim
stage unchanged when debug is true. -/
theorem claim_c2 (doc A B C : String)
    (h : goSplit doc.data delimL = [A.data, B.data, C.data]) :
    trim_stage false doc = some (A ++ C) ∧ trim_stage true doc = some doc := by
  constructor
  · show trim_info doc = some (A ++ C)
    rw [trim_info, trimInfoL.eq_def, h]
    rfl
  · rfl

/-- Witness for C2: the concrete document `A\n<55 hyphens>\nB\n<55 hyphens>\nC`
splits into three segments and trims to `AC`. -/
theorem claim_c2_witness :
    goSplit ((("A" : String).data ++ delimL ++ ("B" : String).data ++ delimL
        ++ ("C" : String).data).asString).data delimL
      = [("A" : String).data, ("B" : String).data, ("C" : String).data]
  ∧ trim_stage false ((("A" : String).data ++ delimL ++ ("B" : String).data ++ delimL
        ++ ("C" : String).data).asString) = some "AC"
  ∧ trim_stage true ((("A" : String).data ++ delimL ++ ("B" : String).data ++ delimL
        ++ ("C" : String).data).asString)
      = some ((("A" : String).data ++ delimL ++ ("B" : String).data ++ delimL
        ++ ("C" : String).data).asString) := by
  have h : goSplit ((("A" : String).data ++ delimL ++ ("B" : String).data ++ delimL
      ++ ("C" : String).data).asString).data delimL
      = [("A" : String).data, ("B" : String).data, ("C" : String).data] := by decide
  exact ⟨h, ((claim_c2 _ "A" "B" "C" h).1).trans (by decide), (claim_c2 _ "A" "B" "C" h).2⟩

/-- Claim C3: whenever splitting on the 55-hyphen delimiter line yields fewer
than three segments, `trim_info` fails with the unguarded out-of-range index
access (modelled as `none`). -/
theorem claim_c3 (doc : String) (h : (goSplit doc.data delimL).length < 3) :
    trim_info doc = none := by
  rcases hg : goSplit doc.data delimL with _ | ⟨s0, t⟩
  · rw [trim_info, trimInfoL.eq_def, hg]; rfl
  · rcases t with _ | ⟨s1, t2⟩
    · rw [trim_info, trimInfoL.eq_def, hg]; rfl
    · rcases t2 with _ | ⟨s2, rest⟩
      · rw [trim_info, trimInfoL.eq_def, hg]; rfl
      · rw [hg] at h; simp at h; omega

/-- Witness for C3: a document with no delimiter line splits into one segment
and the trim stage fails. -/
theorem claim_c3_witness :
    (goSplit ("hello" : String).data delimL).length < 3 ∧ trim_info "hello" = none :=
  ⟨by decide, claim_c3 "hello" (by decide)⟩

/-- Claim C4 (amended): on a line with exactly one glyph annotation whose
description matches the numeric sub-pattern, the code that decides the
outcome is the one the numeric scan finds in the whole line (`d` below), not
the description's own code (`d2`, which the program never consults): if the
line-scanned code is a key of the table its character replaces the
annotation with nothing logged, and if it is unmapped the line is returned
untouched with exactly one warning naming that code.  (As stated — with
both branches keyed on the description's code — the claim is false, see
`claim_c4_cex`.) -/
theorem claim_c4 (line : String) (m desc : Str)
    (d d2 : Char × Char × Char × Char × Char × Char)
    (h1 : findAllJisAnn line.data = [(m, desc)])
    (h2 : findJisNum line.data = some d)
    (h3 : findJisNum desc = some d2) :
    (∀ rep : String, jisLookup (jisCode d) = some rep →
      replace_jis line = ((replaceAll line.data m rep.data).asString, []))
  ∧ (jisLookup (jisCode d) = none →
      replace_jis line = (line, [warnMsg (jisCode d) m])) := by
  constructor
  · intro rep hrep
    simp [replace_jis, replaceJisL, h1, jisStep, h2, hrep]
  · intro hmiss
    simp [replace_jis, replaceJisL, h1, jisStep, h2, hmiss, asString_data]

/-- Witness for C4: `※［＃第3水準1-14-76］` resolves through code 311476 to
`匇` with no warning; `※［＃第4水準9-99-99］` (code 499999, unmapped) is left
untouched with exactly one warning line. -/
theorem claim_c4_witness :
    findAllJisAnn ("※［＃第3水準1-14-76］" : String).data
      = [(("※［＃第3水準1-14-76］" : String).data, ("第3水準1-14-76" : String).data)]
  ∧ replace_jis "※［＃第3水準1-14-76］" = ("匇", [])
  ∧ replace_jis "※［＃第4水準9-99-99］"
      = ("※［＃第4水準9-99-99］",
         [warnMsg 499999 ("※［＃第4水準9-99-99］" : String).data]) := by
  have hhit := claim_c4 "※［＃第3水準1-14-76］" ("※［＃第3水準1-14-76］" : String).data
    ("第3水準1-14-76" : String).data ('3', '1', '1', '4', '7', '6')
    ('3', '1', '1', '4', '7', '6') (by decide) (by decide) (by decide)
  have hmiss := claim_c4 "※［＃第4水準9-99-99］" ("※［＃第4水準9-99-99］" : String).data
    ("第4水準9-99-99" : String).data ('4', '9', '9', '9', '9', '9')
    ('4', '9', '9', '9', '9', '9') (by decide) (by decide) (by decide)
  exact ⟨by decide, (hhit.1 "匇" (by decide)).trans (by decide),
    (hmiss.2 (by decide)).trans (by decide)⟩

/-- Counterexample for C4 as stated: the line
`第3水準1-14-76※［＃第9水準9-99-99］` contains exactly one glyph annotation,
whose description matches the numeric sub-pattern with concatenated code
999999, a code absent from the glyph table — so the claim requires the
annotation left untouched and exactly one warning.  Instead the whole-line
scan finds the stray digits first (code 311476, mapped), so the program
replaces the annotation with `匇` and logs nothing. -/
theorem claim_c4_cex :
    findAllJisAnn ("第3水準1-14-76※［＃第9水準9-99-99］" : String).data
      = [(("※［＃第9水準9-99-99］" : String).data, ("第9水準9-99-99" : String).data)]
  ∧ findJisNum ("第9水準9-99-99" : String).data = some ('9', '9', '9', '9', '9', '9')
  ∧ jisLookup 999999 = none
  ∧ replace_jis "第3水準1-14-76※［＃第9水準9-99-99］" = ("第3水準1-14-76匇", [])
  ∧ replace_jis "第3水準1-14-76※［＃第9水準9-99-99］"
      ≠ ("第3水準1-14-76※［＃第9水準9-99-99］",
         [warnMsg 999999 ("※［＃第9水準9-99-99］" : String).data]) := by
  refine ⟨by decide, by decide, by decide, by decide, ?_⟩
  intro hcontra
  have h1 : replace_jis "第3水準1-14-76※［＃第9水準9-99-99］"
      = ("第3水準1-14-76匇", []) := by decide
  rw [h1] at hcontra
  exact absurd hcontra (by decide)

/-- Claim C5 (amended): an annotation is skipped silently — left unchanged
with no warning — when the numeric sub-pattern finds no match in the whole
current line (the code scans the line, not the matched description); in that
case the entire line passes through `replace_jis` unchanged with no warning. -/
theorem claim_c5 (line : String) (h : findJisNum line.data = none) :
    replace_jis line = (line, []) := by
  simp [replace_jis, replaceJisL, foldl_jisStep_skip _ _ _ h, asString_data]

/-- Witness for C5: a plain line with an annotation whose description does
not match the numeric pattern and no digits anywhere is skipped silently. -/
theorem claim_c5_witness :
    findJisNum ("※［＃感嘆符二つ］" : String).data = none
  ∧ replace_jis "※［＃感嘆符二つ］" = ("※［＃感嘆符二つ］", []) :=
  ⟨by decide, claim_c5 "※［＃感嘆符二つ］" (by decide)⟩

/-- Counterexample for C5 as stated: on the line
`第3水準1-14-76　※［＃小書き］` the only glyph annotation has description
`小書き`, which does not match the numeric sub-pattern — yet the annotation is
not left unchanged: the whole-line scan picks up the stray digits and replaces
the annotation with `匇`. -/
theorem claim_c5_cex :
    findAllJisAnn ("第3水準1-14-76　※［＃小書き］" : String).data
      = [(("※［＃小書き］" : String).data, ("小書き" : String).data)]
  ∧ findJisNum ("小書き" : String).data = none
  ∧ replace_jis "第3水準1-14-76　※［＃小書き］" = ("第3水準1-14-76　匇", [])
  ∧ replace_jis "第3水準1-14-76　※［＃小書き］"
      ≠ ("第3水準1-14-76　※［＃小書き］", []) := by
  refine ⟨by decide, by decide, by decide, ?_⟩
  intro hcontra
  have h1 : replace_jis "第3水準1-14-76　※［＃小書き］" = ("第3水準1-14-76　匇", []) := by
    decide
  rw [h1] at hcontra
  exact absurd hcontra (by decide)

end Aozora

namespace Aozora

set_option maxRecDepth 16384 in
/-- Claim C6: `replace_accents` turns the line `〔o:〕` into `ö` (brackets
stripped, token decoded; the function takes no format argument, so this holds
for every output format); and once a line contains a bracketed segment, the
accent table is applied by global replacement across the entire line, not
scoped to the bracketed span. -/
theorem claim_c6 :
    replace_accents "〔o:〕" = "ö"
  ∧ ∀ (line : String) (m inner : Str), findAllAccent line.data = [(m, inner)] →
      replace_accents line = (accentFold (replaceAll line.data m inner)).asString := by
  constructor
  · decide
  · intro line m inner h
    simp [replace_accents, replaceAccentsL, h]

set_option maxRecDepth 16384 in
/-- Witness for C6: on `u:〔o:〕` the single bracketed match triggers the
whole-line table fold, so the token `u:` outside the brackets is decoded
too, yielding `üö`. -/
theorem claim_c6_witness :
    findAllAccent ("u:〔o:〕" : String).data
      = [(("〔o:〕" : String).data, ("o:" : String).data)]
  ∧ replace_accents "u:〔o:〕"
      = (accentFold (replaceAll ("u:〔o:〕" : String).data ("〔o:〕" : String).data
          ("o:" : String).data)).asString
  ∧ replace_accents "u:〔o:〕" = "üö" := by
  have h : findAllAccent ("u:〔o:〕" : String).data
      = [(("〔o:〕" : String).data, ("o:" : String).data)] := by decide
  exact ⟨h, claim_c6.2 "u:〔o:〕" _ _ h, by decide⟩

/-- Claim C7 (amended): a line with no recognized markup — no glyph
annotation, no ruby match, no emphasis match, no bracketed accent segment —
and no leading or trailing ideographic space (U+3000) passes through the
per-line preprocessing pipeline unchanged, for every output format.
(As stated the claim is false: the pipeline's first step trims U+3000
padding, see `claim_c7_cex`.) -/
theorem claim_c7 (of : OutFmt) (line : String)
    (ht : trimIdeoL line.data = line.data)
    (hj : findAllJisAnn line.data = [])
    (hrb : findAllRuby line.data = [])
    (hbt : findAllBouten line.data = [])
    (hac : findAllAccent line.data = []) :
    preprocessLine of line = line := by
  simp [preprocessLine, preprocessLineL, ht, replaceJisL, hj, replaceRubyL, rubyPassL,
    hrb, boutenPassL, hbt, replaceAccentsL, hac, asString_data]

/-- Witness for C7: a markup-free line without U+3000 padding is unchanged. -/
theorem claim_c7_witness :
    trimIdeoL ("これは本です。" : String).data = ("これは本です。" : String).data
  ∧ findAllJisAnn ("これは本です。" : String).data = []
  ∧ findAllRuby ("これは本です。" : String).data = []
  ∧ findAllBouten ("これは本です。" : String).data = []
  ∧ findAllAccent ("これは本です。" : String).data = []
  ∧ preprocessLine (get_outfmt "md") "これは本です。" = "これは本です。" :=
  ⟨by decide, by decide, by decide, by decide, by decide,
   claim_c7 (get_outfmt "md") "これは本です。" (by decide) (by decide) (by decide)
     (by decide) (by decide)⟩

/-- Counterexample for C7 as stated: the line `　あ` contains no recognized
markup at all, yet the pipeline does not return it unchanged — the leading
ideographic space is trimmed. -/
theorem claim_c7_cex :
    findAllJisAnn ("　あ" : String).data = []
  ∧ findAllRuby ("　あ" : String).data = []
  ∧ findAllBouten ("　あ" : String).data = []
  ∧ findAllAccent ("　あ" : String).data = []
  ∧ preprocessLine (get_outfmt "plain") "　あ" = "あ"
  ∧ ("　あ" : String) ≠ "あ" := by
  refine ⟨by decide, by decide, by decide, by decide, by decide, by decide⟩

/-- Claim C8: a joined document in which neither the structured
heading-annotation pattern nor the triple-newline fallback pattern matches
passes through `replace_hdrs` unchanged (and nothing is logged). -/
theorem claim_c8 (of : OutFmt) (doc : String)
    (h1 : findAllHdr1 doc.data = [])
    (h2 : findAllHdr2 doc.data = []) :
    replace_hdrs doc of = (doc, []) := by
  have hL : replaceHdrsL doc.data of.hdr.data of.shdr.data of.sshdr.data
      = (doc.data, []) := by
    rw [replaceHdrsL.eq_def, h1, h2]
    rfl
  rw [replace_hdrs, hL]
  rfl

/-- Witness for C8: a two-line document with single blank-line separation has
no heading matches and is unchanged by the header stage. -/
theorem claim_c8_witness :
    findAllHdr1 ("hello\n\nworld" : String).data = []
  ∧ findAllHdr2 ("hello\n\nworld" : String).data = []
  ∧ replace_hdrs "hello\n\nworld" (get_outfmt "tex") = ("hello\n\nworld", []) :=
  ⟨by decide, by decide,
   claim_c8 (get_outfmt "tex") "hello\n\nworld" (by decide) (by decide)⟩

/-- Claim C9 (amended): for every format name outside tex, md, plain,
`get_outfmt` returns the all-empty descriptor; subsequent formatting then
silently degrades rather than raising an error, but it is not a no-op: the
ruby substitution renders Go's `%!(EXTRA ...)` diagnostic text (see
`claim_c9_cex` for the refuted no-op reading). -/
theorem claim_c9 (f : String) (h1 : f ≠ "tex") (h2 : f ≠ "md") (h3 : f ≠ "plain") :
    get_outfmt f = ⟨"", "", "", "", ""⟩
  ∧ replace_ruby "経済《けいざい》" (get_outfmt f)
      = "%!(EXTRA string=経済, string=けいざい)" := by
  have hf : get_outfmt f = ⟨"", "", "", "", ""⟩ := by
    rw [get_outfmt.eq_def]
    split <;> simp_all
  exact ⟨hf, by rw [hf]; decide⟩

/-- Witness for C9: the unrecognized format name "org". -/
theorem claim_c9_witness :
    (("org" : String) ≠ "tex")
  ∧ get_outfmt "org" = ⟨"", "", "", "", ""⟩
  ∧ replace_ruby "経済《けいざい》" (get_outfmt "org")
      = "%!(EXTRA string=経済, string=けいざい)" := by
  have h := claim_c9 "org" (by decide) (by decide) (by decide)
  exact ⟨by decide, h.1, h.2⟩

/-- Counterexample for C9 as stated: with the unknown format "org" the
descriptor is all-empty, but ruby formatting is not a silent no-op — the
line `経済《けいざい》` is changed (into Sprintf's EXTRA diagnostic). -/
theorem claim_c9_cex :
    get_outfmt "org" = ⟨"", "", "", "", ""⟩
  ∧ replace_ruby "経済《けいざい》" (get_outfmt "org") ≠ "経済《けいざい》" := by
  refine ⟨by decide, ?_⟩
  intro hcontra
  have h1 : replace_ruby "経済《けいざい》" (get_outfmt "org")
      = "%!(EXTRA string=経済, string=けいざい)" := by decide
  rw [h1] at hcontra
  exact absurd hcontra (by decide)

/-- Claim C10: `parse` joins the preprocessed lines with the two-character
separator `\n\n`, so exactly one blank line separates each consecutive pair
of input lines (an empty input line yields a run of four newlines), and the
joined document is what feeds header restructuring, page-break replacement
and the metadata trim. -/
theorem claim_c10 :
    (∀ (a b : String) (rest : List String),
        joinLines (a :: b :: rest) = a ++ "\n\n" ++ joinLines (b :: rest))
  ∧ joinLines ["x", "", "y"] = "x\n\n\n\ny"
  ∧ ∀ (lines : List String) (of : OutFmt) (debug : Bool),
      parsePipeline lines of debug =
        trim_stage debug (replacePB
          ((replaceHdrsL (joinLines (lines.map (preprocessLine of))).data
              of.hdr.data of.shdr.data of.sshdr.data).1.asString) of) := by
  refine ⟨?_, by decide, fun lines of debug => rfl⟩
  intro a b rest
  apply str_ext
  show a.data ++ ('\n' :: '\n' :: joinLinesL ((b :: rest).map (fun l => l.data)))
      = (a.data ++ ['\n', '\n']) ++ joinLinesL ((b :: rest).map (fun l => l.data))
  simp

end Aozora
